import Mathlib

/-!
# Verification of the katalist source-transformation library

Shallow embedding of the katalist repository (src/jsonToZodSchema.ts,
src/transformer.ts, src/katalist.ts) in Lean 4, together with theorems
settling the frozen claims about its natural-language specification.

Modelling conventions:
* TypeScript AST fragments manipulated by ts-morph are embedded as
  inductive types (`PInit`, `ObjProp`, `CallE`, `NewE`, `Item`, `SrcFile`)
  that record exactly the structure the transformer inspects: receiver
  identifier, method name, type arguments, argument expressions, object
  literal properties, import declarations.
* JavaScript strings are Lean `String`; `String.prototype.replace` with a
  string pattern (first occurrence only) is `replaceFirstStr`;
  `String.prototype.includes` is `containsStr`.
* The external Biome formatter is treated as the identity on the model
  (the spec declares the formatter an external collaborator that never
  corrupts valid input); byte-identity of output text is stated as
  equality of the model source files.
* External collaborator outcomes (network JSON parsing, the
  generate-schema inference library, file writes) enter as parameters;
  fallible steps are `Except`.
-/

namespace Katalist

/-! ## String helpers (JavaScript semantics) -/

/-- Check that `p` is a prefix of `l` (character lists). -/
def strStartsHere : List Char → List Char → Bool
  | [], _ => true
  | _ :: _, [] => false
  | p :: ps, c :: cs => p == c && strStartsHere ps cs

/-- Check that `pat` occurs as a contiguous substring of `l`
(JavaScript `String.prototype.includes` on character lists). -/
def containsSub : List Char → List Char → Bool
  | l, pat =>
    match l with
    | [] => strStartsHere pat []
    | _ :: t => strStartsHere pat l || containsSub t pat

/-- JavaScript `s.includes(pat)`. -/
def containsStr (s pat : String) : Bool :=
  containsSub s.toList pat.toList

/-- Replace the first occurrence of `pat` in the list by `rep`
(JavaScript `String.prototype.replace` with a string search value);
the list is returned unchanged when `pat` does not occur. -/
def replaceFirstL (pat rep : List Char) : List Char → List Char
  | [] => if strStartsHere pat [] then rep else []
  | c :: cs =>
    if strStartsHere pat (c :: cs) then rep ++ (c :: cs).drop pat.length
    else c :: replaceFirstL pat rep cs

/-- JavaScript `s.replace(pat, rep)` (string search value: first
occurrence only). -/
def replaceFirstStr (s pat rep : String) : String :=
  ⟨replaceFirstL pat.toList rep.toList s.toList⟩

/-- JavaScript `s.endsWith(pat)`. -/
def endsWithStr (s pat : String) : Bool :=
  strStartsHere pat.toList.reverse s.toList.reverse

/-! ## Schema Synthesizer model (src/jsonToZodSchema.ts)

A JSON-schema node as produced by the external `generate-schema`
collaborator and post-processed by `addRequiredToAllObjects`.  The
fields are the ones the repository code reads or writes: `type`,
`properties` (absent on non-object nodes), `items` (array element
schema), `required`, `title` and the `$schema` dialect marker.
`properties`/`required` are `Option`s because the JavaScript code tests
the fields for presence (truthiness). -/

inductive JSchema where
  | node (type : String)
      (properties : Option (List (String × JSchema)))
      (items : Option JSchema)
      (required : Option (List String))
      (title : Option String)
      (dialect : Option String)

namespace JSchema

def type : JSchema → String
  | node t _ _ _ _ _ => t

def properties : JSchema → Option (List (String × JSchema))
  | node _ p _ _ _ _ => p

def items : JSchema → Option JSchema
  | node _ _ i _ _ _ => i

def required : JSchema → Option (List String)
  | node _ _ _ r _ _ => r

end JSchema

/-- The `required` list computed for one object node: the names of the
properties whose schema `type` is not `"null"`
(src/jsonToZodSchema.ts lines 54-59). -/
def requiredPropNames (props : List (String × JSchema)) : List String :=
  (props.filter fun p => p.2.type ≠ "null").map Prod.fst

mutual

/-- src/jsonToZodSchema.ts `addRequiredToAllObjects`: when the node has
`type === "object"` and a (truthy) `properties` field, set `required`
to the non-null property names (only when that list is non-empty) and
recurse into every property value; all other nodes — including array
nodes and their `items` — are left untouched. -/
def addRequiredToAllObjects : JSchema → JSchema
  | .node t props? items req title dialect =>
    match props? with
    | some props =>
      if t = "object" then
        let requiredProps := requiredPropNames props
        let req' := if requiredProps ≠ [] then some requiredProps else req
        .node t (some (addRequiredToProps props)) items req' title dialect
      else .node t (some props) items req title dialect
    | none => .node t none items req title dialect

/-- Recursion of `addRequiredToAllObjects` over the `properties` map. -/
def addRequiredToProps : List (String × JSchema) → List (String × JSchema)
  | [] => []
  | (k, v) :: rest => (k, addRequiredToAllObjects v) :: addRequiredToProps rest

end

/-- src/jsonToZodSchema.ts `jsontoJsonSchema`: takes the schema inferred
by the external `generate-schema` collaborator, installs the title,
deletes the `$schema` dialect marker, and runs
`addRequiredToAllObjects`. -/
def jsontoJsonSchema (inferred : JSchema) (title : String) : JSchema :=
  match inferred with
  | .node t props items req _ _ =>
    addRequiredToAllObjects (.node t props items req (some title) none)

/-- Two lists regarded as finite sets are equal. -/
def listSetEq (a b : List String) : Bool :=
  a.all (b.contains ·) && b.all (a.contains ·)

mutual

/-- Claim-side property (from the spec's words, for comparison): every
object-typed node of the tree — reached through `properties` and also
through array `items` — carries a `required` set equal to exactly the
names of its non-`"null"` properties (an absent `required` denotes the
empty set). -/
def specRequiredOK : JSchema → Bool
  | .node t props? items? req? _ _ =>
    (match props? with
     | some props =>
        (!(t == "object") || listSetEq (req?.getD []) (requiredPropNames props))
        && specRequiredOKProps props
     | none => true)
    && (match items? with
       | some it => specRequiredOK it
       | none => true)

/-- Conjunction of `specRequiredOK` over a `properties` map. -/
def specRequiredOKProps : List (String × JSchema) → Bool
  | [] => true
  | (_, v) :: rest => specRequiredOK v && specRequiredOKProps rest

end

/-- Schema inferred by the external `generate-schema` collaborator for
the JSON array `[{"b": 1}]`: an array node whose `items` is an object
node with the single numeric property `b` (plus the `$schema` dialect
marker that `jsontoJsonSchema` deletes at the top level). -/
def inferredArrayOfObjects : JSchema :=
  .node "array" none
    (some (.node "object" (some [("b", .node "number" none none none none none)])
      none none none none))
    none none (some "http://json-schema.org/draft-04/schema#")

/-! ## Transform Engine write path (src/transformer.ts lines 66-73)

When `addTransformFilePath` is true, `transformHttpClientCall` writes
the formatted output to `sourceFilePath.replace(".ts", ".transformed.ts")`
and leaves the file at `sourceFilePath` unwritten; otherwise it writes
to `sourceFilePath` itself. -/

/-- The path `transformHttpClientCall` writes to when asked to write a
new file: JavaScript `sourceFilePath.replace(".ts", ".transformed.ts")`
(first occurrence of `.ts`). -/
def transformedWritePath (sourceFilePath : String) : String :=
  replaceFirstStr sourceFilePath ".ts" ".transformed.ts"

/-- Claim-side path (from the spec's words, for comparison): the sibling
path formed by inserting the `.transformed` marker immediately before
the file extension and nowhere else. -/
def specSiblingPath (sourceFilePath : String) : String :=
  sourceFilePath.dropRight 3 ++ ".transformed.ts"

/-! ## Caller-Detection Probe (getCallerFilePath, src/unnamed/part_001 35-106)

The probe splits a captured stack trace into lines and, per line, takes
the first match of the regular expression
`/\(?((?:file:\/\/)?\/[^\s):]+\.(?:ts|js|tsx|jsx))/` (capture group 1).
The matcher below reproduces the JavaScript leftmost-match-with-greedy-
backtracking semantics of that concrete pattern:

* the optional `\(?` can only help when the current character is `(`
  (the capture itself must begin with `f` of `file://` or `/`);
* the optional `file://` is taken exactly when it is present and
  followed by `/`;
* `[^\s):]+` is a maximal run of characters outside space, tab, CR, LF,
  `)` and `:`; greedy backtracking then finds the longest prefix of the
  run that is followed (inside the run) by `.` and then `ts` or `js` —
  the alternation `ts|js|tsx|jsx` tries `ts` before `tsx` and `js`
  before `jsx`, so the three-letter branches can never be taken. -/

/-- The `[^\s):]` character class of the stack-line pattern. -/
def isPathChar (c : Char) : Bool :=
  !(c = ' ' || c = '\t' || c = '\n' || c = '\r' || c = ')' || c = ':')

/-- Greedy-backtracking search for the longest split of the character
run such that the remainder begins with `.` followed by `ts` or `js`;
returns the captured body (`run-prefix ++ "." ++ ext`). -/
def bestSplit : List Char → Option (List Char)
  | [] => none
  | c :: cs =>
    match bestSplit cs with
    | some body => some (c :: body)
    | none =>
      if c = '.' then
        if strStartsHere ['t', 's'] cs then some ['.', 't', 's']
        else if strStartsHere ['j', 's'] cs then some ['.', 'j', 's']
        else none
      else none

/-- Attempt the stack-line pattern at one start position; returns the
value of capture group 1. -/
def matchAtPos (l : List Char) : Option (List Char) :=
  let l1 := match l with
    | '(' :: t => t
    | _ => l
  let (pre, l2) :=
    if strStartsHere "file://".toList l1 ∧ (l1.drop 7).head? = some '/' then
      ("file://".toList, l1.drop 7)
    else ([], l1)
  match l2 with
  | '/' :: rest =>
    -- `[^\s):]+` must consume at least one character before the dot:
    -- the run is split as `c :: cs`, so the body prefix is non-empty.
    match rest.takeWhile isPathChar with
    | c :: cs =>
      match bestSplit cs with
      | some body => some (pre ++ '/' :: c :: body)
      | none => none
    | [] => none
  | _ => none

/-- First (leftmost) match of the stack-line pattern in a line. -/
def findFirstMatch : List Char → Option (List Char)
  | [] => none
  | l@(_ :: t) =>
    match matchAtPos l with
    | some s => some s
    | none => findFirstMatch t

/-- Model of `filePath.startsWith("file://") ? filePath.substring(7) : filePath`. -/
def stripFileProto (p : String) : String :=
  if strStartsHere "file://".toList p.toList then ⟨p.toList.drop 7⟩ else p

/-- Model of `filePath.replace(/\\/g, "/")`: normalize backslashes (used only to
classify the path, not on the returned value). -/
def normalizeSeps (p : String) : String :=
  ⟨p.toList.map fun c => if c = '\\' then '/' else c⟩

/-- Library-internal classification of a normalized path
(src/unnamed/part_001 lines 71-87). -/
def isInternalLibraryPath (np : String) : Bool :=
  let isKatalistLibraryFile :=
    containsStr np "/node_modules/katalist/" ||
    endsWithStr np "/katalist/src/katalist.ts" ||
    containsStr np "/katalist/dist/index.js" ||
    containsStr np "/katalist/dist/index.cjs"
  let isNodeModuleFile := containsStr np "/node_modules/" && !isKatalistLibraryFile
  isKatalistLibraryFile || isNodeModuleFile || containsStr np "ts-morph"

/-- The per-line loop of `getCallerFilePath` over the stack lines: the
first line whose pattern match, after `file://` stripping, is non-empty
and not library-internal yields the result — the *unnormalized* stripped
path is returned. -/
def getCallerFilePathLines : List String → Option String
  | [] => none
  | line :: rest =>
    match findFirstMatch line.toList with
    | none => getCallerFilePathLines rest
    | some fp0 =>
      let fp := stripFileProto ⟨fp0⟩
      if fp = "" then getCallerFilePathLines rest
      else if isInternalLibraryPath (normalizeSeps fp) then getCallerFilePathLines rest
      else some fp

/-- Model of `getCallerFilePath`: `none` when the engine supplies no stack trace,
otherwise the line scan above. -/
def getCallerFilePath (stack : Option (List String)) : Option String :=
  match stack with
  | none => none
  | some lines => getCallerFilePathLines lines

/-! ## Client Facade afterResponse hook (src/unnamed/part_001 lines 131-196)

The GET hook, run after a successful HTTP response.  The outcomes of the
external sub-computations are parameters: `parse` is the result of
`await response.json()`, `gen` abstracts the inner `generateSchema`
helper (`jsonToZodSchema` + `writeZodSchema`), `tranf` abstracts
`transformHttpClientCall` on the recorded source file.  Only the
`tranf` call sits inside `try { ... } catch`, so only its failure is
swallowed; `parse` and `gen` failures escape the hook and reject the
HTTP call's promise. -/

/-- JSON value, as classified by the hook's `typeof`/`Array.isArray`
tests. -/
inductive JVal where
  | jobj (fields : List (String × JVal))
  | jarr (elems : List JVal)
  | jstr (s : String)
  | jnum (n : Int)
  | jbool (b : Bool)
  | jnull

/-- JavaScript `typeof v === "object"` (true for objects, arrays and
`null`). -/
def typeofIsObject : JVal → Bool
  | .jobj _ => true
  | .jarr _ => true
  | .jnull => true
  | _ => false

/-- The `json.length > 0 && typeof json[0] === "object"` second conjunct. -/
def arrayHeadIsObject (elems : List JVal) : Bool :=
  match elems.head? with
  | some h => typeofIsObject h
  | none => false

/-- The per-call options record of the Facade (truthiness of
`interfaceName`/`sourceFile` modelled by `Option`). -/
structure KatalistCallOptions where
  generateSchema : Bool
  interfaceName : Option String
  sourceFile : Option String

/-- The GET afterResponse hook.  Mirrors the source control flow:
guard on `generateSchema && interfaceName`; `await response.json()`
unguarded; object → synthesize, non-empty array of objects →
synthesize, empty/non-object array → warn and `return` (skipping the
transform block), other values → warn and fall through; finally, when a
source file is recorded, call the Transform Engine inside
`try { ... } catch { log }`. -/
def afterResponseGetHook (opts : KatalistCallOptions)
    (parse : Except String JVal)
    (gen : JVal → String → Except String Unit)
    (tranf : String → Except String Unit) : Except String Unit :=
  match opts.interfaceName with
  | none => .ok ()
  | some iname =>
    if opts.generateSchema then
      match parse with
      | .error e => .error e
      | .ok json =>
        let step : Except String Bool :=
          match json with
          | .jarr elems =>
            if elems.length > 0 ∧ arrayHeadIsObject elems then
              match gen (.jarr elems) iname with
              | .error e => .error e
              | .ok _ => .ok true
            else .ok false
          | .jobj fields =>
            match gen (.jobj fields) iname with
            | .error e => .error e
            | .ok _ => .ok true
          | _ => .ok true
        match step with
        | .error e => .error e
        | .ok false => .ok ()
        | .ok true =>
          match opts.sourceFile with
          | some sf =>
            match tranf sf with
            | _ => .ok ()
          | none => .ok ()
    else .ok ()

/-! ## Transform Engine AST model (src/transformer.ts)

The engine inspects and rewrites a fixed fragment of the TypeScript
syntax tree; the model records exactly that fragment:

* `PInit` — an expression as seen by the passes: a string literal, a
  plain object literal, or any other expression kept as opaque text;
* `ObjProp` — an object-literal member: a property assignment
  (`name: init`) or a non-named member (spread etc.), which ts-morph's
  `getProperty(name)` never returns;
* `CallE` — a call whose callee is a property access on an identifier
  (`client.get(...)`); the textual `.replace(/\.get\(/, ...)` rewrite of
  `addTypeParametersToKatalistCalls` targets the callee exactly when the
  receiver is an identifier, which is the shape the library matches;
* `NewE` — a `new <Callee>(...)` expression, with the variable name of
  its parent declaration (when the parent is one) and the chain of that
  declaration's ancestors, which `findContainingFunctionName` walks;
* `Item` — a top-level tree node in source order; `SrcFile` — imports
  plus items.  The Biome formatter is the identity on the model, so
  byte-identity of emitted text is equality of `SrcFile` values. -/

mutual

inductive PInit where
  | strLit (s : String)
  | objLit (props : List ObjProp)
  | other (text : String)

inductive ObjProp where
  | named (name : String) (init : PInit)
  | spread (text : String)

end

/-- ts-morph `ObjectLiteralExpression.getProperty(name)`: the first
named member with that name (its initializer in this model). -/
def getObjProp : List ObjProp → String → Option PInit
  | [], _ => none
  | .named n i :: rest, name => if n = name then some i else getObjProp rest name
  | .spread _ :: rest, name => getObjProp rest name

/-- Model of `property.remove()` applied to the node `getProperty` found: drops
the first named member with the given name, if any. -/
def removeFirstProp : List ObjProp → String → List ObjProp
  | [], _ => []
  | .named n i :: rest, name =>
    if n = name then rest else .named n i :: removeFirstProp rest name
  | .spread t :: rest, name => .spread t :: removeFirstProp rest name

/-- A call `obj.method<typeArgs>(args)` whose callee is a property
access on the identifier `obj`. -/
structure CallE where
  obj : String
  method : String
  typeArgs : List String
  args : List PInit

/-- An ancestor node as classified by `findContainingFunctionName`
(name fields are `getName()`, `none` when absent). -/
inductive PNode where
  | funcDecl (name : Option String)
  | funcExpr (name : Option String)
  | arrowFn
  | varDecl (name : Option String) (hasFunctionInit : Bool)
  | otherNode
  deriving DecidableEq, Repr

/-- A `new Callee(args)` expression; `binding` is
`(variable name, ancestors of the variable declaration)` when the
parent node is a variable declaration. -/
structure NewE where
  callee : String
  args : List PInit
  binding : Option (String × List PNode)

/-- A top-level node of the modelled source file. -/
inductive Item where
  | call (c : CallE)
  | newx (n : NewE)
  | other (text : String)

/-- An import declaration as the engine reads and writes it. -/
structure ImportDecl where
  moduleSpecifier : String
  namedImports : List String
  isTypeOnly : Bool
  deriving DecidableEq, Repr

/-- The modelled source file: import declarations plus items in source
order. -/
structure SrcFile where
  imports : List ImportDecl
  items : List Item

/-! src/transformer.ts `findKatalistCallsWithSchemaGeneration`
(lines 124-158): property-access calls named exactly `get` whose second
argument is an object literal with both `generateSchema` and
`interfaceName` members. -/

/-- The matching predicate of `findKatalistCallsWithSchemaGeneration`. -/
def isKatalistSchemaCall (c : CallE) : Bool :=
  c.method == "get" &&
  (match c.args with
   | _ :: optionsArg :: _ =>
     (match optionsArg with
      | .objLit props =>
        (getObjProp props "generateSchema").isSome &&
        (getObjProp props "interfaceName").isSome
      | _ => false)
   | _ => false)

/-- Predicate `isKatalistSchemaCall` lifted to items. -/
def isSchemaGenCallItem : Item → Bool
  | .call c => isKatalistSchemaCall c
  | _ => false

/-- src/transformer.ts `findKatalistCallsWithSchemaGeneration`. -/
def findKatalistCallsWithSchemaGeneration (f : SrcFile) : List CallE :=
  f.items.filterMap fun it =>
    match it with
    | .call c => if isKatalistSchemaCall c then some c else none
    | _ => none

/-- src/transformer.ts `addTypeParametersToKatalistCalls` (lines
233-280), on one matched call: skip when type arguments are already
present; otherwise read the `interfaceName` string literal and install
`<interfaceName>SchemaType` as the type argument (the source performs
`callText.replace(/\.get\(/, ...)` and re-parses; with an identifier
receiver the first `.get(` is the callee). -/
def addTypeParamToKatalistCall (c : CallE) : CallE :=
  if isKatalistSchemaCall c then
    if c.typeArgs.length > 0 then c
    else
      match c.args with
      | _ :: .objLit props :: _ =>
        (match getObjProp props "interfaceName" with
         | some (.strLit interfaceName) =>
           { c with typeArgs := [interfaceName ++ "SchemaType"] }
         | _ => c)
      | _ => c
  else c

/-- Apply a call-level rewrite to every call item. -/
def mapCallItems (g : CallE → CallE) (f : SrcFile) : SrcFile :=
  { f with items := f.items.map fun it =>
      match it with
      | .call c => .call (g c)
      | it => it }

/-- Apply a constructor-level rewrite to every `new` item. -/
def mapNewItems (g : NewE → NewE) (f : SrcFile) : SrcFile :=
  { f with items := f.items.map fun it =>
      match it with
      | .newx n => .newx (g n)
      | it => it }

/-- src/transformer.ts `addTypeParametersToKatalistCalls`, whole file. -/
def addTypeParametersToKatalistCalls (f : SrcFile) : SrcFile :=
  mapCallItems addTypeParamToKatalistCall f

/-- The import `addKatalistSchemaImports` (lines 751-792) would add for
a call carrying the type argument `typeName`: schema name =
`typeName.replace("SchemaType", "")`; skipped when some existing import
mentions the schema name in its specifier and names `typeName`. -/
def katalistImportFor (basePath : String) (existing : List ImportDecl)
    (typeName : String) : Option ImportDecl :=
  let schemaName := replaceFirstStr typeName "SchemaType" ""
  let hasImport := existing.any fun d =>
    containsStr d.moduleSpecifier schemaName && d.namedImports.any (· == typeName)
  if hasImport then none
  else some ⟨basePath ++ "/" ++ schemaName, [typeName], true⟩

/-- The list of imports one run of `addKatalistSchemaImports` appends:
the existing-import snapshot is taken once, before any insertion, as in
the source (`getImportDeclarations()` before the loop).  `basePath` is
the relative schema-directory path computed by
`calculateHttpSchemasPath` from the file location and the working
directory (external `node:path` collaborator). -/
def katalistImportsToAdd (basePath : String) (f : SrcFile) : List ImportDecl :=
  (findKatalistCallsWithSchemaGeneration f).filterMap fun c =>
    match c.typeArgs with
    | typeName :: _ => katalistImportFor basePath f.imports typeName
    | [] => none

/-- src/transformer.ts `addKatalistSchemaImports`. -/
def addKatalistSchemaImports (basePath : String) (f : SrcFile) : SrcFile :=
  { f with imports := f.imports ++ katalistImportsToAdd basePath f }

/-- The matching predicate of `findHttpClientCallsWithZodOutput`
(lines 92-106): `new HttpClient(...)` with an object-literal argument
owning a `zodOutput` member. -/
def hasZodOutputNew (n : NewE) : Bool :=
  n.callee == "HttpClient" &&
  n.args.any fun a =>
    match a with
    | .objLit props => (getObjProp props "zodOutput").isSome
    | _ => false

/-- src/transformer.ts `findHttpClientCallsWithZodOutput`. -/
def findHttpClientCallsWithZodOutput (f : SrcFile) : List NewE :=
  f.items.filterMap fun it =>
    match it with
    | .newx n => if hasZodOutputNew n then some n else none
    | _ => none

/-- Pass `removeZodOutput` (lines 178-199) on one constructor argument:
object literals owning `zodOutput` lose it and `forceFileTransform`. -/
def removeZodFromArg (a : PInit) : PInit :=
  match a with
  | .objLit props =>
    if (getObjProp props "zodOutput").isSome then
      .objLit (removeFirstProp (removeFirstProp props "zodOutput") "forceFileTransform")
    else .objLit props
  | a => a

/-- Pass `removeZodOutput` on one matched constructor. -/
def removeZodOutputNew (n : NewE) : NewE :=
  if hasZodOutputNew n then { n with args := n.args.map removeZodFromArg } else n

/-- src/transformer.ts `removeZodOutput`, whole file (its trailing
`formatWithBiome` is the identity on the model). -/
def removeZodOutput (f : SrcFile) : SrcFile :=
  mapNewItems removeZodOutputNew f

/-- Pass `removeSchemaGenerationOptions` (lines 282-310) on the options
literal: remove the `generateSchema`, `interfaceName` and `sourceFile`
members that `getProperty` finds. -/
def stripGenOptionsProps (props : List ObjProp) : List ObjProp :=
  removeFirstProp
    (removeFirstProp (removeFirstProp props "generateSchema") "interfaceName")
    "sourceFile"

/-- Pass `removeSchemaGenerationOptions` on one matched call. -/
def removeSchemaGenerationOptionsCall (c : CallE) : CallE :=
  if isKatalistSchemaCall c then
    match c.args with
    | a0 :: .objLit props :: rest =>
      { c with args := a0 :: .objLit (stripGenOptionsProps props) :: rest }
    | _ => c
  else c

/-- src/transformer.ts `removeSchemaGenerationOptions`, whole file. -/
def removeSchemaGenerationOptions (f : SrcFile) : SrcFile :=
  mapCallItems removeSchemaGenerationOptionsCall f

/-- src/transformer.ts `transformHttpClientCall` (lines 49-74), the
in-memory pipeline on one parsed file, in source order:
type-parameter injection, import injection, `zodOutput` removal,
generation-option stripping; `formatWithBiome` is the identity on the
model.  (The on-disk write path of the same function is
`transformedWritePath` above.) -/
def transformHttpClientCall (basePath : String) (f : SrcFile) : SrcFile :=
  removeSchemaGenerationOptions
    (removeZodOutput
      (addKatalistSchemaImports basePath
        (addTypeParametersToKatalistCalls f)))

/-- What the pipeline does to a single item (derived form, proved equal
to the pipeline's item action). -/
def transformItem : Item → Item
  | .call c => .call (removeSchemaGenerationOptionsCall (addTypeParamToKatalistCall c))
  | .newx n => .newx (removeZodOutputNew n)
  | .other t => .other t

/-- Claim-side predicate for C8: the members kept by
generation-option stripping — everything except the three named
generation options. -/
def keepAfterStrip : ObjProp → Bool
  | .named n _ => !(n == "generateSchema" || n == "interfaceName" || n == "sourceFile")
  | .spread _ => true

/-! ### Variable-correlation sub-algorithm (legacy constructor form) -/

/-- src/transformer.ts `getNodeName` (lines 423-434):
`getName() || "anonymous"`. -/
def getNodeName : PNode → String
  | .varDecl name _ => name.getD "anonymous"
  | .funcDecl name => name.getD "anonymous"
  | .funcExpr name => name.getD "anonymous"
  | _ => "anonymous"

/-- src/transformer.ts `isFunctionVariableDeclaration` (lines 407-418). -/
def isFunctionVariableDeclaration : PNode → Bool
  | .varDecl _ hasFn => hasFn
  | _ => false

/-- src/transformer.ts `findContainingFunctionName` (lines 436-463):
walk the ancestor chain; named/anonymous function declarations and
function expressions answer directly; an arrow function answers with
its parent variable declaration's name when there is one, else
"anonymous"; a variable declaration with a function initializer answers
with its name; otherwise continue upward; "global" at the top. -/
def findContainingFunctionName : List PNode → String
  | [] => "global"
  | .funcDecl name :: _ => getNodeName (.funcDecl name)
  | .funcExpr name :: _ => getNodeName (.funcExpr name)
  | .arrowFn :: rest =>
    (match rest with
     | .varDecl name hasFn :: _ => getNodeName (.varDecl name hasFn)
     | _ => "anonymous")
  | .varDecl name hasFn :: rest =>
    if hasFn then getNodeName (.varDecl name hasFn)
    else findContainingFunctionName rest
  | .otherNode :: rest => findContainingFunctionName rest

/-- src/transformer.ts `extractSchemaNameFromZodOutput` (lines 376-396):
`zodOutput`'s initializer must be an object literal whose `schemaName`
is a string literal; answer `<schemaName>OutputSchemaType`. -/
def extractSchemaNameFromZodOutput (init : PInit) : Option String :=
  match init with
  | .objLit props =>
    (match getObjProp props "schemaName" with
     | some (.strLit schemaName) => some (schemaName ++ "OutputSchemaType")
     | _ => none)
  | _ => none

/-- src/transformer.ts `extractTypeFromHttpClientArgs` (lines 471-483):
the first object-literal argument owning a `zodOutput` property
assignment decides the answer (even when extraction from it fails). -/
def extractTypeFromHttpClientArgs : List PInit → Option String
  | [] => none
  | .objLit props :: rest =>
    (match getObjProp props "zodOutput" with
     | some zodInit => extractSchemaNameFromZodOutput zodInit
     | none => extractTypeFromHttpClientArgs rest)
  | _ :: rest => extractTypeFromHttpClientArgs rest

/-- Value type of the correlation map
(src/transformer.ts `HttpClientInfo`). -/
structure HttpClientInfo where
  typeName : String
  functionName : String
  deriving DecidableEq, Repr

/-- JavaScript `Map.prototype.set` on an insertion-ordered association
list: overwrite in place, or append. -/
def mapSet (m : List (String × HttpClientInfo)) (k : String) (v : HttpClientInfo) :
    List (String × HttpClientInfo) :=
  if m.any (fun p => p.1 == k) then
    m.map fun p => if p.1 == k then (k, v) else p
  else m ++ [(k, v)]

/-- The loop of `extractHttpClientVariablesWithZodOutput` (lines
535-579) over the matched constructors, carrying the map and the
`processedFirstFunction` flag. -/
def extractLoop (functionNames : Option (List String)) :
    List NewE → List (String × HttpClientInfo) → Bool → List (String × HttpClientInfo)
  | [], acc, _ => acc
  | n :: rest, acc, processedFirst =>
    match n.binding with
    | none => extractLoop functionNames rest acc processedFirst
    | some (variableName, parents) =>
      let functionName := findContainingFunctionName parents
      let skip1 :=
        match functionNames with
        | some fns =>
          fns.length > 0 && !(fns.contains functionName) && !(fns.contains "<anonymous>")
        | none => false
      if skip1 then extractLoop functionNames rest acc processedFirst
      else
        let skip2 :=
          (match functionNames with
           | some fns => fns.contains "<anonymous>"
           | none => false) && processedFirst
        if skip2 then extractLoop functionNames rest acc processedFirst
        else
          match extractTypeFromHttpClientArgs n.args with
          | some typeName =>
            extractLoop functionNames rest
              (mapSet acc (variableName ++ ":" ++ functionName)
                ⟨typeName, functionName⟩) true
          | none => extractLoop functionNames rest acc processedFirst

/-- src/transformer.ts `extractHttpClientVariablesWithZodOutput`. -/
def extractHttpClientVariablesWithZodOutput (f : SrcFile)
    (functionNames : Option (List String)) : List (String × HttpClientInfo) :=
  extractLoop functionNames (findHttpClientCallsWithZodOutput f) [] false

/-- The first matched constructor with a parent variable declaration
and an extractable type name — what the loop actually keeps when the
filter contains the `"<anonymous>"` sentinel. -/
def firstValidHttpClientBinding : List NewE → Option (String × HttpClientInfo)
  | [] => none
  | n :: rest =>
    match n.binding with
    | none => firstValidHttpClientBinding rest
    | some (variableName, parents) =>
      let functionName := findContainingFunctionName parents
      match extractTypeFromHttpClientArgs n.args with
      | some typeName =>
        some (variableName ++ ":" ++ functionName, ⟨typeName, functionName⟩)
      | none => firstValidHttpClientBinding rest

/-! ### Well-formedness: distinct member names in option literals

TypeScript rejects object literals with duplicate property names
(TS1117); the idempotence and exact-stripping results assume the input
file satisfies this. -/

/-- Names of the named members, in order. -/
def propNames (props : List ObjProp) : List String :=
  props.filterMap fun p =>
    match p with
    | .named n _ => some n
    | .spread _ => none

/-- No duplicates. -/
def distinctNames : List String → Bool
  | [] => true
  | n :: rest => !(rest.contains n) && distinctNames rest

/-- Argument well-formedness: object literals have distinct member
names. -/
def argWFb : PInit → Bool
  | .objLit props => distinctNames (propNames props)
  | _ => true

/-- Item well-formedness: all call/constructor arguments well-formed. -/
def itemWFb : Item → Bool
  | .call c => c.args.all argWFb
  | .newx n => n.args.all argWFb
  | .other _ => true

/-- File well-formedness. -/
def fileWFb (f : SrcFile) : Bool :=
  f.items.all itemWFb

/-- A sample source file exercising every pass: a tagged `get` call, a
legacy `HttpClient` constructor with `zodOutput`, and an unrelated
statement. -/
def sampleKatalistFile : SrcFile :=
  ⟨[⟨"ky", ["ky"], false⟩],
   [.call ⟨"client", "get", [],
      [.strLit "/users",
       .objLit [.named "generateSchema" (.other "true"),
                .named "interfaceName" (.strLit "User"),
                .named "headers" (.objLit [])]]⟩,
    .newx ⟨"HttpClient",
      [.objLit [.named "zodOutput" (.objLit [.named "schemaName" (.strLit "A")]),
                .named "forceFileTransform" (.other "true"),
                .named "baseUrl" (.strLit "/api")]],
      some ("c1", [.funcDecl (some "foo")])⟩,
    .other "console.log(1);"]⟩

end Katalist

namespace Katalist

/-! ## Theorems -/

/-- Helper: a list starts with itself followed by anything. -/
theorem strStartsHere_append_self (p r : List Char) :
    strStartsHere p (p ++ r) = true := by
  induction p with
  | nil => simp [strStartsHere]
  | cons c cs ih => simp [strStartsHere, ih]

/-- Helper: if `.ts` is a prefix of `l ++ ".ts"`, then either `l` is
empty or `.ts` is already a prefix of `l` (the pattern cannot straddle
the boundary). -/
theorem ts_no_straddle (l : List Char)
    (h : strStartsHere ['.', 't', 's'] (l ++ ['.', 't', 's']) = true) :
    l = [] ∨ strStartsHere ['.', 't', 's'] l = true := by
  match l with
  | [] => exact Or.inl rfl
  | [a] =>
    exfalso
    simp [strStartsHere] at h
  | [a, b] =>
    exfalso
    simp [strStartsHere] at h
  | a :: b :: c :: rest =>
    right
    simpa [strStartsHere] using h

/-- Helper: replacing the first `.ts` in `base ++ ".ts"` when `base`
contains no `.ts` replaces exactly the final extension. -/
theorem replaceFirstL_ts_append (rep : List Char) (base : List Char)
    (h : containsSub base ['.', 't', 's'] = false) :
    replaceFirstL ['.', 't', 's'] rep (base ++ ['.', 't', 's']) = base ++ rep := by
  induction base with
  | nil =>
    have h0 : strStartsHere ['.', 't', 's'] ['.', 't', 's'] = true := by decide
    simp [replaceFirstL, h0]
  | cons c cs ih =>
    rw [containsSub] at h
    have h1 : strStartsHere ['.', 't', 's'] (c :: cs) = false := by
      cases hs : strStartsHere ['.', 't', 's'] (c :: cs) <;> simp [hs] at h ⊢
    have h2 : containsSub cs ['.', 't', 's'] = false := by
      cases hc : containsSub cs ['.', 't', 's'] <;> simp [hc, h1] at h ⊢
    have hfull : strStartsHere ['.', 't', 's'] ((c :: cs) ++ ['.', 't', 's']) = false := by
      cases hf : strStartsHere ['.', 't', 's'] ((c :: cs) ++ ['.', 't', 's'])
      · rfl
      · rcases ts_no_straddle (c :: cs) hf with h' | h'
        · exact absurd h' (by simp)
        · rw [h'] at h1; exact absurd h1 (by simp)
    rw [List.cons_append, replaceFirstL]
    rw [List.cons_append] at hfull
    rw [hfull]
    simp [ih h2]

/-- C7 (counterexample): on a path whose directory part already contains
the substring `.ts`, JavaScript `replace(".ts", ".transformed.ts")`
rewrites the directory name, not the extension, so the marker is not
inserted immediately before the file extension. -/
theorem transformedWritePath_counterexample :
    transformedWritePath "a.tsb/c.ts" = "a.transformed.tsb/c.ts" ∧
    transformedWritePath "a.tsb/c.ts" ≠ specSiblingPath "a.tsb/c.ts" := by
  constructor
  · decide
  · decide

/-- C7 (amended): when the substring `.ts` does not occur before the
final `.ts` extension, the write path of `transformHttpClientCall` with
the write-new-file flag inserts the `.transformed` marker immediately
before the extension, and the written path differs from the original, so
the original file is left unwritten. -/
theorem transformedWritePath_marker_before_extension (base : String)
    (h : containsStr base ".ts" = false) :
    transformedWritePath (base ++ ".ts") = base ++ ".transformed.ts" ∧
    transformedWritePath (base ++ ".ts") ≠ base ++ ".ts" := by
  have hdata : (base ++ ".ts").toList = base.toList ++ ['.', 't', 's'] := by
    simp [String.toList, String.data_append]
  have h' : containsSub base.toList ['.', 't', 's'] = false := h
  have e1 : ".ts".toList = ['.', 't', 's'] := rfl
  have key : transformedWritePath (base ++ ".ts") = base ++ ".transformed.ts" := by
    apply String.ext
    show replaceFirstL _ _ _ = _
    rw [e1, hdata, replaceFirstL_ts_append _ _ h']
    simp [String.toList, String.data_append]
  refine ⟨key, ?_⟩
  rw [key]
  intro heq
  have hlen := congrArg String.length heq
  simp [String.length_append] at hlen
  exact absurd hlen (by decide)

/-! ### Transform Engine: structural lemmas -/

/-- The pipeline acts on items pointwise as `transformItem`. -/
theorem transformHttpClientCall_items (b : String) (f : SrcFile) :
    (transformHttpClientCall b f).items = f.items.map transformItem := by
  simp only [transformHttpClientCall, removeSchemaGenerationOptions, removeZodOutput,
    addKatalistSchemaImports, addTypeParametersToKatalistCalls, mapCallItems,
    mapNewItems, List.map_map]
  refine List.map_congr_left fun it _ => ?_
  cases it <;> rfl

/-- The pipeline appends exactly the imports computed from the
type-parameter pass's output, against the pre-existing import
snapshot. -/
theorem transformHttpClientCall_imports (b : String) (f : SrcFile) :
    (transformHttpClientCall b f).imports =
      f.imports ++ katalistImportsToAdd b (addTypeParametersToKatalistCalls f) := rfl

/-- Pass `addTypeParamToKatalistCall` only ever changes the type-argument
list. -/
theorem addTypeParam_shape (c : CallE) :
    ∃ ta, addTypeParamToKatalistCall c = { c with typeArgs := ta } := by
  rcases c with ⟨o, m, t, a⟩
  unfold addTypeParamToKatalistCall
  repeat' split
  all_goals exact ⟨_, rfl⟩

/-- Matching ignores the type-argument list. -/
theorem isKatalist_update_typeArgs (c : CallE) (ta : List String) :
    isKatalistSchemaCall { c with typeArgs := ta } = isKatalistSchemaCall c := by
  rcases c with ⟨o, m, t, a⟩
  rfl

/-- Unmatched calls are left alone by the type-parameter pass. -/
theorem addTypeParam_of_not_matched {c : CallE}
    (h : isKatalistSchemaCall c = false) : addTypeParamToKatalistCall c = c := by
  simp [addTypeParamToKatalistCall, h]

/-- Unmatched calls are left alone by the option-stripping pass. -/
theorem stripOptions_of_not_matched {c : CallE}
    (h : isKatalistSchemaCall c = false) :
    removeSchemaGenerationOptionsCall c = c := by
  simp [removeSchemaGenerationOptionsCall, h]

/-- Unmatched constructors are left alone by the zodOutput pass. -/
theorem removeZod_of_not_matched {n : NewE}
    (h : hasZodOutputNew n = false) : removeZodOutputNew n = n := by
  simp [removeZodOutputNew, h]

/-- Unfolding `propNames` on a named head. -/
theorem propNames_cons_named (m : String) (i : PInit) (rest : List ObjProp) :
    propNames (.named m i :: rest) = m :: propNames rest := rfl

/-- Unfolding `propNames` on a spread head. -/
theorem propNames_cons_spread (t : String) (rest : List ObjProp) :
    propNames (.spread t :: rest) = propNames rest := rfl

/-- A name absent from the member names is not found. -/
theorem getObjProp_eq_none_of_not_contains {l : List ObjProp} {n : String}
    (h : (propNames l).contains n = false) : getObjProp l n = none := by
  induction l with
  | nil => rfl
  | cons p rest ih =>
    cases p with
    | named m i =>
      rw [propNames_cons_named, List.contains_cons, Bool.or_eq_false_iff] at h
      rw [getObjProp, if_neg fun hmn => by simp [hmn] at h]
      exact ih h.2
    | spread t =>
      rw [propNames_cons_spread] at h
      rw [getObjProp]
      exact ih h

/-- Removal never introduces a member. -/
theorem removeFirstProp_preserves_none {l : List ObjProp} {n m : String}
    (h : getObjProp l n = none) : getObjProp (removeFirstProp l m) n = none := by
  induction l with
  | nil => rfl
  | cons p rest ih =>
    cases p with
    | named k i =>
      rw [getObjProp] at h
      by_cases hk : k = n
      · rw [if_pos hk] at h; exact absurd h (by simp)
      · rw [if_neg hk] at h
        rw [removeFirstProp]
        by_cases hm : k = m
        · rw [if_pos hm]; exact h
        · rw [if_neg hm, getObjProp, if_neg hk]; exact ih h
    | spread t =>
      rw [getObjProp] at h
      rw [removeFirstProp, getObjProp]
      exact ih h

/-- With distinct member names, removing a name removes its only
occurrence. -/
theorem getObjProp_removeFirst_self {l : List ObjProp} {n : String}
    (h : distinctNames (propNames l) = true) :
    getObjProp (removeFirstProp l n) n = none := by
  induction l with
  | nil => rfl
  | cons p rest ih =>
    cases p with
    | named m i =>
      rw [propNames_cons_named, distinctNames, Bool.and_eq_true,
        Bool.not_eq_true'] at h
      rw [removeFirstProp]
      by_cases hm : m = n
      · rw [if_pos hm]
        exact getObjProp_eq_none_of_not_contains (hm ▸ h.1)
      · rw [if_neg hm, getObjProp, if_neg hm]
        exact ih h.2
    | spread t =>
      rw [propNames_cons_spread] at h
      rw [removeFirstProp, getObjProp]
      exact ih h

/-- Filtering out a name that is not present changes nothing. -/
theorem filter_notNamed_of_not_contains {l : List ObjProp} {n : String}
    (h : (propNames l).contains n = false) :
    (l.filter fun p => match p with
      | .named m _ => !(m == n)
      | .spread _ => true) = l := by
  induction l with
  | nil => rfl
  | cons p rest ih =>
    cases p with
    | named m i =>
      rw [propNames_cons_named, List.contains_cons, Bool.or_eq_false_iff] at h
      have hmn : (m == n) = false := by
        cases hx : m == n with
        | false => rfl
        | true =>
          have heq : m = n := by simpa using hx
          subst heq
          simpa using h.1
      simp only [List.filter_cons, hmn, Bool.not_false, if_pos]
      rw [ih h.2]
    | spread t =>
      rw [propNames_cons_spread] at h
      simp only [List.filter_cons, if_pos]
      rw [ih h]

/-- With distinct member names, removing the first occurrence of a name
is filtering that name out. -/
theorem removeFirstProp_eq_filter {l : List ObjProp} {n : String}
    (h : distinctNames (propNames l) = true) :
    removeFirstProp l n = l.filter fun p => match p with
      | .named m _ => !(m == n)
      | .spread _ => true := by
  induction l with
  | nil => rfl
  | cons p rest ih =>
    cases p with
    | named m i =>
      rw [propNames_cons_named, distinctNames, Bool.and_eq_true,
        Bool.not_eq_true'] at h
      rw [removeFirstProp]
      by_cases hm : m = n
      · rw [if_pos hm, List.filter_cons]
        simp only [hm, beq_self_eq_true, Bool.not_true]
        rw [if_neg (by simp)]
        exact (filter_notNamed_of_not_contains (hm ▸ h.1)).symm
      · rw [if_neg hm, List.filter_cons]
        have hb : (m == n) = false := by simpa using hm
        simp only [hb, Bool.not_false, if_pos]
        rw [ih h.2]
    | spread t =>
      rw [propNames_cons_spread] at h
      rw [removeFirstProp, List.filter_cons]
      simp only [if_pos]
      rw [ih h]

/-- Membership in the names of a filtered member list implies
membership in the original names. -/
theorem contains_propNames_filter {l : List ObjProp} {q : ObjProp → Bool}
    {x : String} (h : (propNames (l.filter q)).contains x = true) :
    (propNames l).contains x = true := by
  induction l with
  | nil => simp [propNames] at h
  | cons p rest ih =>
    rw [List.filter_cons] at h
    cases p with
    | named m i =>
      rw [propNames_cons_named, List.contains_cons]
      by_cases hq : q (.named m i) = true
      · rw [if_pos hq, propNames_cons_named, List.contains_cons] at h
        cases hx : x == m
        · rw [Bool.false_or]
          rw [hx, Bool.false_or] at h
          exact ih h
        · simp
      · rw [if_neg (by simpa using hq)] at h
        rw [ih h, Bool.or_true]
    | spread t =>
      rw [propNames_cons_spread]
      by_cases hq : q (.spread t) = true
      · rw [if_pos hq, propNames_cons_spread] at h
        exact ih h
      · rw [if_neg (by simpa using hq)] at h
        exact ih h

/-- Distinctness of member names survives filtering. -/
theorem distinctNames_propNames_filter {l : List ObjProp} {q : ObjProp → Bool}
    (h : distinctNames (propNames l) = true) :
    distinctNames (propNames (l.filter q)) = true := by
  induction l with
  | nil => rfl
  | cons p rest ih =>
    rw [List.filter_cons]
    cases p with
    | named m i =>
      rw [propNames_cons_named, distinctNames, Bool.and_eq_true,
        Bool.not_eq_true'] at h
      by_cases hq : q (.named m i) = true
      · rw [if_pos hq, propNames_cons_named, distinctNames, Bool.and_eq_true,
          Bool.not_eq_true']
        refine ⟨?_, ih h.2⟩
        cases hc : (propNames (rest.filter q)).contains m
        · rfl
        · rw [contains_propNames_filter hc] at h
          exact h.1
      · rw [if_neg (by simpa using hq)]
        exact ih h.2
    | spread t =>
      rw [propNames_cons_spread] at h
      by_cases hq : q (.spread t) = true
      · rw [if_pos hq, propNames_cons_spread]
        exact ih h
      · rw [if_neg (by simpa using hq)]
        exact ih h

/-- With distinct member names, the three sequential removals of
`removeSchemaGenerationOptions` amount to filtering out exactly the
three generation options. -/
theorem stripGenOptionsProps_eq_filter {props : List ObjProp}
    (h : distinctNames (propNames props) = true) :
    stripGenOptionsProps props = props.filter keepAfterStrip := by
  rw [stripGenOptionsProps]
  rw [removeFirstProp_eq_filter h]
  rw [removeFirstProp_eq_filter (distinctNames_propNames_filter h)]
  rw [removeFirstProp_eq_filter
    (distinctNames_propNames_filter (distinctNames_propNames_filter h))]
  rw [List.filter_filter, List.filter_filter]
  refine List.filter_congr fun p _ => ?_
  cases p with
  | named m i =>
    simp only [keepAfterStrip, Bool.not_or]
    cases m == "generateSchema" <;> cases m == "interfaceName" <;>
      cases m == "sourceFile" <;> rfl
  | spread t => rfl

/-- C8: on a matched tagged call whose options literal has distinct
member names, the stripping pass removes exactly the `generateSchema`,
`interfaceName` and `sourceFile` members — every other member (for
example `headers`, or a spread) is kept, in order, with its initializer
untouched, and no other part of the call changes. -/
theorem removeSchemaGenerationOptions_exact (c : CallE) (a0 : PInit)
    (props : List ObjProp) (rest : List PInit)
    (hargs : c.args = a0 :: .objLit props :: rest)
    (hm : isKatalistSchemaCall c = true)
    (hwf : distinctNames (propNames props) = true) :
    removeSchemaGenerationOptionsCall c =
      { c with args := a0 :: .objLit (props.filter keepAfterStrip) :: rest } := by
  rcases c with ⟨o, m, t, args⟩
  simp only at hargs
  subst hargs
  rw [removeSchemaGenerationOptionsCall, if_pos hm]
  simp only
  rw [stripGenOptionsProps_eq_filter hwf]

/-- Witness for `removeSchemaGenerationOptions_exact`: a call whose
options carry `headers` and a spread next to the generation options. -/
theorem removeSchemaGenerationOptions_exact_witness :
    removeSchemaGenerationOptionsCall
      ⟨"client", "get", [],
        [.strLit "/users",
         .objLit [.named "generateSchema" (.other "true"),
                  .named "interfaceName" (.strLit "User"),
                  .named "headers" (.objLit [.named "Accept" (.strLit "json")]),
                  .spread "...extra",
                  .named "sourceFile" (.strLit "./a.ts")]]⟩ =
      { obj := "client", method := "get", typeArgs := [],
        args := [.strLit "/users",
          .objLit ([.named "generateSchema" (.other "true"),
                    .named "interfaceName" (.strLit "User"),
                    .named "headers" (.objLit [.named "Accept" (.strLit "json")]),
                    .spread "...extra",
                    .named "sourceFile" (.strLit "./a.ts")].filter keepAfterStrip)]} :=
  removeSchemaGenerationOptions_exact _ _ _ _ rfl (by decide) (by decide)

/-- C2: one run of the Transform Engine rewrites a tagged call
`client.get(url, {generateSchema: ..., interfaceName: "User"})` that
has no type arguments into `client.get<UserSchemaType>(url, {})`, and —
unless an existing import already names `UserSchemaType` from a module
specifier mentioning `User` — appends a type-only import of
`UserSchemaType` from `<schema-path>/User`, where `basePath` is the
relative schema-directory path computed by `calculateHttpSchemasPath`. -/
theorem transform_roundtrip_get_call (basePath : String) (f : SrcFile) (i : Nat)
    (objName : String) (urlArg gsInit : PInit)
    (hc : f.items[i]? = some (.call ⟨objName, "get", [],
      [urlArg, .objLit [.named "generateSchema" gsInit,
                        .named "interfaceName" (.strLit "User")]]⟩))
    (himp : (f.imports.any fun d =>
      containsStr d.moduleSpecifier "User" &&
      d.namedImports.any (· == "UserSchemaType")) = false) :
    (transformHttpClientCall basePath f).items[i]? = some (.call ⟨objName, "get",
      ["UserSchemaType"], [urlArg, .objLit []]⟩) ∧
    (⟨basePath ++ "/User", ["UserSchemaType"], true⟩ : ImportDecl) ∈
      (transformHttpClientCall basePath f).imports := by
  constructor
  · rw [transformHttpClientCall_items, List.getElem?_map, hc]
    rfl
  · rw [transformHttpClientCall_imports]
    apply List.mem_append_right
    have hf1 : (addTypeParametersToKatalistCalls f).items[i]? =
        some (.call ⟨objName, "get", ["UserSchemaType"],
          [urlArg, .objLit [.named "generateSchema" gsInit,
                            .named "interfaceName" (.strLit "User")]]⟩) := by
      rw [addTypeParametersToKatalistCalls, mapCallItems]
      show (f.items.map _)[i]? = _
      rw [List.getElem?_map, hc]
      rfl
    have hmem : (⟨objName, "get", ["UserSchemaType"],
        [urlArg, .objLit [.named "generateSchema" gsInit,
                          .named "interfaceName" (.strLit "User")]]⟩ : CallE) ∈
        findKatalistCallsWithSchemaGeneration (addTypeParametersToKatalistCalls f) := by
      rw [findKatalistCallsWithSchemaGeneration]
      exact List.mem_filterMap.mpr ⟨_, List.getElem?_mem hf1, rfl⟩
    rw [katalistImportsToAdd]
    refine List.mem_filterMap.mpr ⟨_, hmem, ?_⟩
    show katalistImportFor basePath (addTypeParametersToKatalistCalls f).imports
      "UserSchemaType" = _
    have himps : (addTypeParametersToKatalistCalls f).imports = f.imports := rfl
    rw [himps, katalistImportFor]
    have hschema : replaceFirstStr "UserSchemaType" "SchemaType" "" = "User" := by
      decide
    simp only [hschema, himp]
    rw [if_neg (by simp), String.append_assoc]
    rfl

/-- Witness for `transform_roundtrip_get_call` on a one-call file. -/
theorem transform_roundtrip_get_call_witness :
    (transformHttpClientCall "../http-schemas"
        ⟨[], [.call ⟨"client", "get", [],
          [.strLit "/users",
           .objLit [.named "generateSchema" (.other "true"),
                    .named "interfaceName" (.strLit "User")]]⟩]⟩).items[0]? =
      some (.call ⟨"client", "get", ["UserSchemaType"],
        [.strLit "/users", .objLit []]⟩) ∧
    (⟨"../http-schemas" ++ "/User", ["UserSchemaType"], true⟩ : ImportDecl) ∈
      (transformHttpClientCall "../http-schemas"
        ⟨[], [.call ⟨"client", "get", [],
          [.strLit "/users",
           .objLit [.named "generateSchema" (.other "true"),
                    .named "interfaceName" (.strLit "User")]]⟩]⟩).imports :=
  transform_roundtrip_get_call "../http-schemas" _ 0 "client"
    (.strLit "/users") (.other "true") rfl rfl

/-- An entry of `mapSet m k v` is an old entry or the new pair. -/
theorem mapSet_mem {m : List (String × HttpClientInfo)} {k : String}
    {v : HttpClientInfo} {e : String × HttpClientInfo}
    (h : e ∈ mapSet m k v) : e ∈ m ∨ e = (k, v) := by
  rw [mapSet] at h
  by_cases ha : (m.any fun p => p.1 == k) = true
  · rw [if_pos ha] at h
    rcases List.mem_map.mp h with ⟨p, hp, heq⟩
    by_cases hk : (p.1 == k) = true
    · rw [if_pos hk] at heq
      exact Or.inr heq.symm
    · rw [if_neg hk] at heq
      exact Or.inl (heq ▸ hp)
  · rw [if_neg ha] at h
    rcases List.mem_append.mp h with h | h
    · exact Or.inl h
    · exact Or.inr (List.mem_singleton.mp h)

/-- Without the `"<anonymous>"` sentinel, every entry the loop adds has
its containing-function name in the filter. -/
theorem extractLoop_no_sentinel {fns : List String}
    (hne : fns ≠ []) (hsent : fns.contains "<anonymous>" = false) :
    ∀ (calls : List NewE) (acc : List (String × HttpClientInfo)) (b : Bool),
      (∀ e ∈ acc, fns.contains e.2.functionName = true) →
      ∀ e ∈ extractLoop (some fns) calls acc b,
        fns.contains e.2.functionName = true := by
  intro calls
  induction calls with
  | nil => intro acc b hacc e he; exact hacc e he
  | cons n rest ih =>
    intro acc b hacc e he
    rcases n with ⟨callee, args, binding⟩
    cases binding with
    | none => exact ih acc b hacc e he
    | some vp =>
      rcases vp with ⟨variableName, parents⟩
      have he' : e ∈ (if (decide (fns.length > 0) &&
            !(fns.contains (findContainingFunctionName parents)) &&
            !(fns.contains "<anonymous>")) = true
          then extractLoop (some fns) rest acc b
          else if (fns.contains "<anonymous>" && b) = true
            then extractLoop (some fns) rest acc b
            else
              match extractTypeFromHttpClientArgs args with
              | some typeName =>
                extractLoop (some fns) rest
                  (mapSet acc
                    (variableName ++ ":" ++ findContainingFunctionName parents)
                    ⟨typeName, findContainingFunctionName parents⟩) true
              | none => extractLoop (some fns) rest acc b) := he
      clear he
      by_cases hs1 : (decide (fns.length > 0) &&
          !(fns.contains (findContainingFunctionName parents)) &&
          !(fns.contains "<anonymous>")) = true
      · rw [if_pos hs1] at he'
        exact ih acc b hacc e he'
      · rw [if_neg hs1] at he'
        have hcf : fns.contains (findContainingFunctionName parents) = true := by
          have hlen : decide (fns.length > 0) = true := by
            simp [List.length_pos, hne]
          cases hx : fns.contains (findContainingFunctionName parents)
          · rw [hlen, hx, hsent] at hs1
            exact absurd rfl hs1
          · rfl
        rw [if_neg (by rw [hsent]; simp)] at he'
        rcases hx : extractTypeFromHttpClientArgs args with _ | t <;>
          rw [hx] at he'
        · exact ih acc b hacc e he'
        · refine ih _ _ ?_ e he'
          intro e' hme
          rcases mapSet_mem hme with h' | h'
          · exact hacc e' h'
          · rw [h']
            exact hcf

/-- Once the `processedFirstFunction` flag is set and the filter holds
the `"<anonymous>"` sentinel, the loop discards every remaining
binding. -/
theorem extractLoop_sentinel_stop {fns : List String}
    (hsent : fns.contains "<anonymous>" = true) :
    ∀ (calls : List NewE) (acc : List (String × HttpClientInfo)),
      extractLoop (some fns) calls acc true = acc := by
  intro calls
  induction calls with
  | nil => intro acc; rfl
  | cons n rest ih =>
    intro acc
    rcases n with ⟨callee, args, binding⟩
    cases binding with
    | none => exact ih acc
    | some vp =>
      rcases vp with ⟨v, parents⟩
      have key : extractLoop (some fns)
          (⟨callee, args, some (v, parents)⟩ :: rest) acc true =
          (if (decide (fns.length > 0) &&
              !(fns.contains (findContainingFunctionName parents)) &&
              !(fns.contains "<anonymous>")) = true
            then extractLoop (some fns) rest acc true
            else if (fns.contains "<anonymous>" && true) = true
              then extractLoop (some fns) rest acc true
              else
                match extractTypeFromHttpClientArgs args with
                | some typeName =>
                  extractLoop (some fns) rest
                    (mapSet acc
                      (v ++ ":" ++ findContainingFunctionName parents)
                      ⟨typeName, findContainingFunctionName parents⟩) true
                | none => extractLoop (some fns) rest acc true) := rfl
      rw [key, hsent]
      rw [if_neg (by simp), if_pos (by simp)]
      exact ih acc

/-- With the `"<anonymous>"` sentinel in the filter, the loop keeps
exactly the first extractable binding, whatever its function name. -/
theorem extractLoop_sentinel {fns : List String}
    (hsent : fns.contains "<anonymous>" = true) :
    ∀ calls : List NewE,
      extractLoop (some fns) calls [] false =
        (match firstValidHttpClientBinding calls with
         | some kv => [kv]
         | none => []) := by
  intro calls
  induction calls with
  | nil => rfl
  | cons n rest ih =>
    rcases n with ⟨callee, args, binding⟩
    cases binding with
    | none => exact ih
    | some vp =>
      rcases vp with ⟨v, parents⟩
      have key : extractLoop (some fns)
          (⟨callee, args, some (v, parents)⟩ :: rest) [] false =
          (if (decide (fns.length > 0) &&
              !(fns.contains (findContainingFunctionName parents)) &&
              !(fns.contains "<anonymous>")) = true
            then extractLoop (some fns) rest [] false
            else if (fns.contains "<anonymous>" && false) = true
              then extractLoop (some fns) rest [] false
              else
                match extractTypeFromHttpClientArgs args with
                | some typeName =>
                  extractLoop (some fns) rest
                    (mapSet []
                      (v ++ ":" ++ findContainingFunctionName parents)
                      ⟨typeName, findContainingFunctionName parents⟩) true
                | none => extractLoop (some fns) rest [] false) := rfl
      have keyR : firstValidHttpClientBinding
          (⟨callee, args, some (v, parents)⟩ :: rest) =
          (match extractTypeFromHttpClientArgs args with
           | some typeName =>
             some (v ++ ":" ++ findContainingFunctionName parents,
               ⟨typeName, findContainingFunctionName parents⟩)
           | none => firstValidHttpClientBinding rest) := rfl
      rw [key, keyR, hsent]
      rw [if_neg (by simp), if_neg (by simp)]
      cases hx : extractTypeFromHttpClientArgs args with
      | some t =>
        show extractLoop (some fns) rest
            (mapSet [] (v ++ ":" ++ findContainingFunctionName parents)
              ⟨t, findContainingFunctionName parents⟩) true = _
        rw [extractLoop_sentinel_stop hsent]
        rfl
      | none =>
        show extractLoop (some fns) rest [] false = _
        exact ih

/-- C6 (counterexample): with the filter `["<anonymous>"]`, the loop
keeps the binding made inside the named function `foo` — whose name is
neither in the filter nor the `anonymous` sentinel — and discards the
later genuinely-anonymous binding: the sentinel disables name
filtering instead of selecting anonymous bindings. -/
theorem extract_anonymous_filter_counterexample :
    extractHttpClientVariablesWithZodOutput
      ⟨[], [.newx ⟨"HttpClient",
              [.objLit [.named "zodOutput"
                (.objLit [.named "schemaName" (.strLit "A")])]],
              some ("c1", [.funcDecl (some "foo")])⟩,
            .newx ⟨"HttpClient",
              [.objLit [.named "zodOutput"
                (.objLit [.named "schemaName" (.strLit "B")])]],
              some ("c2", [.arrowFn])⟩]⟩
      (some ["<anonymous>"]) =
      [("c1:foo", ⟨"AOutputSchemaType", "foo"⟩)] ∧
    (["<anonymous>"].contains "foo") = false ∧
    "foo" ≠ "anonymous" := by
  exact ⟨rfl, rfl, by decide⟩

/-- C6 (amended): when the non-empty filter does not contain the
`"<anonymous>"` sentinel, every binding kept has its containing-function
name in the filter; when it does contain the sentinel, name filtering is
disabled entirely and exactly the first extractable binding — whatever
its function name — is kept, all later ones (anonymous or not) being
discarded. -/
theorem extractHttpClientVariables_filter_semantics :
    (∀ (f : SrcFile) (fns : List String), fns ≠ [] →
      fns.contains "<anonymous>" = false →
      ∀ e ∈ extractHttpClientVariablesWithZodOutput f (some fns),
        fns.contains e.2.functionName = true) ∧
    (∀ (f : SrcFile) (fns : List String),
      fns.contains "<anonymous>" = true →
      extractHttpClientVariablesWithZodOutput f (some fns) =
        (match firstValidHttpClientBinding (findHttpClientCallsWithZodOutput f) with
         | some kv => [kv]
         | none => [])) := by
  constructor
  · intro f fns hne hsent e he
    exact extractLoop_no_sentinel hne hsent _ [] false (by intro e' h; simp at h) e he
  · intro f fns hsent
    exact extractLoop_sentinel hsent _

/-- Witness for `extractHttpClientVariables_filter_semantics` (first
part) on a one-binding file filtered by `["foo"]`. -/
theorem extractHttpClientVariables_filter_semantics_witness :
    (["foo"] : List String).contains
      (("c1:foo", (⟨"AOutputSchemaType", "foo"⟩ : HttpClientInfo)) :
        String × HttpClientInfo).2.functionName = true :=
  extractHttpClientVariables_filter_semantics.1
    ⟨[], [.newx ⟨"HttpClient",
      [.objLit [.named "zodOutput" (.objLit [.named "schemaName" (.strLit "A")])]],
      some ("c1", [.funcDecl (some "foo")])⟩]⟩
    ["foo"] (by decide) (by decide) _ (by decide)

/-- Structure equality from componentwise equality. -/
theorem SrcFile_ext (a b : SrcFile) (h1 : a.imports = b.imports)
    (h2 : a.items = b.items) : a = b := by
  cases a
  cases b
  cases h1
  cases h2
  rfl

/-- Shape of a matched tagged call. -/
theorem isKatalist_shape {c : CallE} (h : isKatalistSchemaCall c = true) :
    c.method = "get" ∧ ∃ a0 props rest, c.args = a0 :: .objLit props :: rest ∧
      (getObjProp props "generateSchema").isSome = true ∧
      (getObjProp props "interfaceName").isSome = true := by
  rw [isKatalistSchemaCall, Bool.and_eq_true] at h
  obtain ⟨h1, h2⟩ := h
  refine ⟨by simpa using h1, ?_⟩
  rcases c with ⟨o, m, t, args⟩
  match args, h2 with
  | [], h2 => simp at h2
  | [a], h2 => simp at h2
  | a0 :: opt :: rest, h2 =>
    cases opt with
    | objLit props =>
      rw [Bool.and_eq_true] at h2
      exact ⟨a0, props, rest, rfl, h2.1, h2.2⟩
    | strLit s => simp at h2
    | other t' => simp at h2

/-- After the type-parameter pass and the option-stripping pass, a
well-formed call no longer matches the locator — the idempotence
checkpoint for katalist calls. -/
theorem stripped_call_unmatched {c : CallE} (hwf : c.args.all argWFb = true) :
    isKatalistSchemaCall
      (removeSchemaGenerationOptionsCall (addTypeParamToKatalistCall c)) = false := by
  by_cases hm : isKatalistSchemaCall c = true
  · obtain ⟨hmeth, a0, props, rest, hargs, hgs, hin⟩ := isKatalist_shape hm
    obtain ⟨ta, hta⟩ := addTypeParam_shape c
    have hm' : isKatalistSchemaCall { c with typeArgs := ta } = true := by
      rw [isKatalist_update_typeArgs]; exact hm
    rw [hta, removeSchemaGenerationOptionsCall, if_pos hm']
    rcases c with ⟨o, m, t, args⟩
    simp only at hargs
    subst hargs
    have hd : distinctNames (propNames props) = true := by
      have := List.all_eq_true.mp hwf (.objLit props) (by simp)
      simpa [argWFb] using this
    have hnone : getObjProp (stripGenOptionsProps props) "generateSchema" = none := by
      rw [stripGenOptionsProps]
      apply removeFirstProp_preserves_none
      apply removeFirstProp_preserves_none
      exact getObjProp_removeFirst_self hd
    rw [isKatalistSchemaCall]
    simp [hnone]
  · have hm' : isKatalistSchemaCall c = false := by simpa using hm
    rw [addTypeParam_of_not_matched hm', stripOptions_of_not_matched hm']
    exact hm'

/-- After the zodOutput pass, a well-formed constructor no longer
matches the locator — the idempotence checkpoint for the legacy form. -/
theorem stripped_new_unmatched {n : NewE} (hwf : n.args.all argWFb = true) :
    hasZodOutputNew (removeZodOutputNew n) = false := by
  by_cases hm : hasZodOutputNew n = true
  · rw [removeZodOutputNew, if_pos hm]
    rcases n with ⟨callee, args, binding⟩
    rw [hasZodOutputNew]
    simp only
    have hany : (args.map removeZodFromArg).any (fun a =>
        match a with
        | .objLit props => (getObjProp props "zodOutput").isSome
        | _ => false) = false := by
      rw [List.any_map, List.any_eq_false]
      intro a ha
      rw [Function.comp_apply, Bool.not_eq_true]
      have hwa : argWFb a = true := List.all_eq_true.mp hwf a ha
      cases a with
      | objLit props =>
        show (match removeZodFromArg (.objLit props) with
          | PInit.objLit ps => (getObjProp ps "zodOutput").isSome
          | _ => false) = false
        rw [removeZodFromArg]
        by_cases hz : (getObjProp props "zodOutput").isSome = true
        · rw [if_pos hz]
          have hd : distinctNames (propNames props) = true := by
            simpa [argWFb] using hwa
          have : getObjProp
              (removeFirstProp (removeFirstProp props "zodOutput")
                "forceFileTransform") "zodOutput" = none := by
            apply removeFirstProp_preserves_none
            exact getObjProp_removeFirst_self hd
          simp [this]
        · rw [if_neg hz]
          simpa using hz
      | strLit s => rfl
      | other t' => rfl
    rw [hany, Bool.and_false]
  · have hm' : hasZodOutputNew n = false := by simpa using hm
    rw [removeZod_of_not_matched hm']
    exact hm'

/-- On well-formed items the pipeline's item action is idempotent. -/
theorem transformItem_idem {it : Item} (hwf : itemWFb it = true) :
    transformItem (transformItem it) = transformItem it := by
  cases it with
  | call c =>
    have h := stripped_call_unmatched (by simpa [itemWFb] using hwf)
    show Item.call (removeSchemaGenerationOptionsCall (addTypeParamToKatalistCall
      (removeSchemaGenerationOptionsCall (addTypeParamToKatalistCall c)))) = _
    rw [addTypeParam_of_not_matched h, stripOptions_of_not_matched h]
    rfl
  | newx n =>
    have h := stripped_new_unmatched (by simpa [itemWFb] using hwf)
    show Item.newx (removeZodOutputNew (removeZodOutputNew n)) = _
    rw [removeZod_of_not_matched h]
    rfl
  | other t => rfl

/-- A second run of the import pass adds nothing: after stripping, no
call matches the locator. -/
theorem importsToAdd_second_run (b : String) (f : SrcFile)
    (h : fileWFb f = true) :
    katalistImportsToAdd b
      (addTypeParametersToKatalistCalls (transformHttpClientCall b f)) = [] := by
  rw [fileWFb] at h
  have hnil : findKatalistCallsWithSchemaGeneration
      (addTypeParametersToKatalistCalls (transformHttpClientCall b f)) = [] := by
    rw [findKatalistCallsWithSchemaGeneration, List.filterMap_eq_nil_iff]
    intro it hit
    have hview : (addTypeParametersToKatalistCalls
        (transformHttpClientCall b f)).items =
        ((transformHttpClientCall b f).items.map fun x =>
          match x with
          | Item.call c => Item.call (addTypeParamToKatalistCall c)
          | x => x) := rfl
    rw [hview, transformHttpClientCall_items] at hit
    rcases List.mem_map.mp hit with ⟨it1, hit1, rfl⟩
    rcases List.mem_map.mp hit1 with ⟨it0, hit0, rfl⟩
    have hwf0 : itemWFb it0 = true := List.all_eq_true.mp h it0 hit0
    cases it0 with
    | call c =>
      have hfalse := stripped_call_unmatched
        (c := c) (by simpa [itemWFb] using hwf0)
      show (match Item.call (addTypeParamToKatalistCall
          (removeSchemaGenerationOptionsCall (addTypeParamToKatalistCall c))) with
        | Item.call c' => if isKatalistSchemaCall c' then some c' else none
        | _ => none) = none
      rw [addTypeParam_of_not_matched hfalse]
      simp [hfalse]
    | newx n => rfl
    | other t => rfl
  rw [katalistImportsToAdd, hnil]
  rfl

/-- C1: the Transform Engine is idempotent — a second run on its own
output (same flag, formatter being the external collaborator assumed to
be a fixed point on its own output) is the identity: no type argument is
added to a call that already carries one, no duplicate import is
inserted, and no option is re-stripped.  Well-formedness asks object
literals in call/constructor arguments to have distinct member names,
which TypeScript already enforces (TS1117). -/
theorem transformHttpClientCall_idempotent (b : String) (f : SrcFile)
    (h : fileWFb f = true) :
    transformHttpClientCall b (transformHttpClientCall b f) =
      transformHttpClientCall b f := by
  have h' := h
  rw [fileWFb] at h'
  apply SrcFile_ext
  · rw [transformHttpClientCall_imports, importsToAdd_second_run b f h,
      List.append_nil]
  · rw [transformHttpClientCall_items, transformHttpClientCall_items,
      List.map_map]
    refine List.map_congr_left fun it hmem => ?_
    have hwf : itemWFb it = true := List.all_eq_true.mp h' it hmem
    simpa [Function.comp] using transformItem_idem hwf

/-- Witness for `transformHttpClientCall_idempotent` on
`sampleKatalistFile`. -/
theorem transformHttpClientCall_idempotent_witness :
    fileWFb sampleKatalistFile = true ∧
    transformHttpClientCall "../http-schemas"
        (transformHttpClientCall "../http-schemas" sampleKatalistFile) =
      transformHttpClientCall "../http-schemas" sampleKatalistFile :=
  ⟨by decide,
   transformHttpClientCall_idempotent "../http-schemas" sampleKatalistFile
     (by decide)⟩

/-- C10: the katalist passes match only calls whose method name is
exactly `get`: a `post`/`put`/`delete` call — even one carrying
`generateSchema` and `interfaceName` options — is not matched by
`findKatalistCallsWithSchemaGeneration`, and one full run of the
Transform Engine leaves it textually unchanged (no type parameter, no
import, no option stripped). -/
theorem nonGet_calls_never_transformed (b : String) (f : SrcFile) (i : Nat)
    (c : CallE) (hc : f.items[i]? = some (.call c))
    (hm : c.method ≠ "get") :
    (transformHttpClientCall b f).items[i]? = some (.call c) ∧
    c ∉ findKatalistCallsWithSchemaGeneration f := by
  have hfalse : isKatalistSchemaCall c = false := by
    rw [isKatalistSchemaCall]
    have hb : (c.method == "get") = false := by
      simpa using hm
    rw [hb, Bool.false_and]
  constructor
  · rw [transformHttpClientCall_items, List.getElem?_map, hc]
    simp [transformItem, addTypeParam_of_not_matched hfalse,
      stripOptions_of_not_matched hfalse]
  · intro hmem
    rw [findKatalistCallsWithSchemaGeneration] at hmem
    rcases List.mem_filterMap.mp hmem with ⟨it, _, heq⟩
    cases it with
    | call c' =>
      by_cases h' : isKatalistSchemaCall c' = true
      · simp only [h', if_pos] at heq
        cases heq
        rw [h'] at hfalse
        exact absurd hfalse (by simp)
      · simp [h'] at heq
    | newx n => simp at heq
    | other t => simp at heq

/-- Witness for `nonGet_calls_never_transformed`: a `post` call carrying
both generation options is untouched by the whole pipeline. -/
theorem nonGet_calls_never_transformed_witness :
    (transformHttpClientCall "../http-schemas"
        ⟨[], [.call ⟨"client", "post", [],
          [.strLit "/posts", .other "data",
           .objLit [.named "generateSchema" (.other "true"),
                    .named "interfaceName" (.strLit "Post")]]⟩]⟩).items[0]? =
      some (.call ⟨"client", "post", [],
        [.strLit "/posts", .other "data",
         .objLit [.named "generateSchema" (.other "true"),
                  .named "interfaceName" (.strLit "Post")]]⟩) ∧
    (⟨"client", "post", [],
      [.strLit "/posts", .other "data",
       .objLit [.named "generateSchema" (.other "true"),
                .named "interfaceName" (.strLit "Post")]]⟩ : CallE) ∉
      findKatalistCallsWithSchemaGeneration
        ⟨[], [.call ⟨"client", "post", [],
          [.strLit "/posts", .other "data",
           .objLit [.named "generateSchema" (.other "true"),
                    .named "interfaceName" (.strLit "Post")]]⟩]⟩ :=
  nonGet_calls_never_transformed "../http-schemas" _ 0 _ rfl (by decide)

/-- C9: a call site whose second argument is not a plain object literal
is never matched, so one full run of the Transform Engine leaves it
unchanged and raises no error (the model is a total function); the
locator returns the empty sequence when no item matches. -/
theorem malformed_options_untouched (b : String) (f : SrcFile) (i : Nat)
    (c : CallE) (hc : f.items[i]? = some (.call c))
    (hopt : ∀ props : List ObjProp, c.args[1]? ≠ some (.objLit props)) :
    (transformHttpClientCall b f).items[i]? = some (.call c) ∧
    isKatalistSchemaCall c = false ∧
    (∀ g : SrcFile, (∀ it ∈ g.items, isSchemaGenCallItem it = false) →
      findKatalistCallsWithSchemaGeneration g = []) := by
  have hfalse : isKatalistSchemaCall c = false := by
    rw [isKatalistSchemaCall]
    rcases c with ⟨o, m, t, args⟩
    match args with
    | [] => simp
    | [a] => simp
    | a0 :: opt :: rest =>
      cases opt with
      | objLit props => exact (hopt props (by simp)).elim
      | strLit s => simp
      | other tx => simp
  refine ⟨?_, hfalse, ?_⟩
  · rw [transformHttpClientCall_items, List.getElem?_map, hc]
    simp [transformItem, addTypeParam_of_not_matched hfalse,
      stripOptions_of_not_matched hfalse]
  · intro g hg
    rw [findKatalistCallsWithSchemaGeneration, List.filterMap_eq_nil_iff]
    intro it hit
    have := hg it hit
    cases it with
    | call c' => simpa [isSchemaGenCallItem] using this
    | newx n => rfl
    | other t => rfl

/-- Witness for `malformed_options_untouched`: a `get` call whose
options argument is a spread expression is untouched. -/
theorem malformed_options_untouched_witness :
    (transformHttpClientCall "../http-schemas"
        ⟨[], [.call ⟨"client", "get", [],
          [.strLit "/users", .other "...opts"]⟩]⟩).items[0]? =
      some (.call ⟨"client", "get", [], [.strLit "/users", .other "...opts"]⟩) ∧
    isKatalistSchemaCall
      ⟨"client", "get", [], [.strLit "/users", .other "...opts"]⟩ = false ∧
    (∀ g : SrcFile, (∀ it ∈ g.items, isSchemaGenCallItem it = false) →
      findKatalistCallsWithSchemaGeneration g = []) :=
  malformed_options_untouched "../http-schemas" _ 0 _ rfl
    (fun props h => by simp at h)

/-- C4 (counterexample): exceptions from response-body JSON parsing and
from schema synthesis inside the afterResponse hook are *not* swallowed
— only the transform call is wrapped in `try`/`catch` — so such an
exception escapes the hook and the HTTP call appears failed to its
caller. -/
theorem afterResponse_parse_and_gen_errors_propagate :
    afterResponseGetHook ⟨true, some "User", some "/app/main.ts"⟩
        (.error "SyntaxError: Unexpected token")
        (fun _ _ => .ok ()) (fun _ => .ok ())
      = .error "SyntaxError: Unexpected token" ∧
    afterResponseGetHook ⟨true, some "User", some "/app/main.ts"⟩
        (.ok (.jobj []))
        (fun _ _ => .error "schema synthesis failed") (fun _ => .ok ())
      = .error "schema synthesis failed" := by
  exact ⟨rfl, rfl⟩

/-- C4 (amended): only the Transform-Engine call is guarded, so whenever
response-body parsing and schema synthesis succeed, the hook succeeds
no matter how the transform fails; the HTTP result is returned. -/
theorem afterResponse_transform_errors_swallowed
    (opts : KatalistCallOptions) (j : JVal)
    (gen : JVal → String → Except String Unit)
    (tranf : String → Except String Unit)
    (hgen : ∀ s, gen j s = .ok ()) :
    afterResponseGetHook opts (.ok j) gen tranf = .ok () := by
  rcases opts with ⟨gs, iname, sf⟩
  rw [afterResponseGetHook]
  cases iname with
  | none => rfl
  | some iname =>
    cases gs with
    | false => simp
    | true =>
      simp only [if_pos rfl]
      cases j with
      | jobj fields => simp [hgen]; cases sf <;> simp
      | jarr elems =>
        by_cases hc : elems.length > 0 ∧ arrayHeadIsObject elems = true
        · simp [hc, hgen]; cases sf <;> simp
        · simp [hc]
      | jstr s => cases sf <;> simp
      | jnum n => cases sf <;> simp
      | jbool b => cases sf <;> simp
      | jnull => cases sf <;> simp

/-- Witness for `afterResponse_transform_errors_swallowed`: a failing
transform leaves the hook successful. -/
theorem afterResponse_transform_errors_swallowed_witness :
    afterResponseGetHook ⟨true, some "User", some "/app/main.ts"⟩
      (.ok (.jobj [])) (fun _ _ => .ok ()) (fun _ => .error "disk full")
      = .ok () :=
  afterResponse_transform_errors_swallowed _ _ _ _ (fun _ => rfl)

/-- C5 (counterexample): for a stack trace holding one library-internal
frame and then one user frame whose path contains a backslash, the
probe returns the user path *unnormalized* — backslashes are replaced
only on the copy used for the internal/external classification, not on
the returned value (src/unnamed/part_001 returns `filePath`, not
`normalizedPath`). -/
theorem getCallerFilePath_counterexample :
    getCallerFilePath (some
      ["    at x (/node_modules/katalist/index.ts:1:1)",
       "    at y (/home/u\\ap.ts:2:2)"]) = some "/home/u\\ap.ts" ∧
    normalizeSeps "/home/u\\ap.ts" = "/home/u/ap.ts" ∧
    "/home/u\\ap.ts" ≠ "/home/u/ap.ts" := by
  refine ⟨by decide, by decide, by decide⟩

/-- C5 (amended): given a trace whose first line matches as a
library-internal path and whose second line matches as a non-internal
path, the probe returns the second path with only the `file://` prefix
stripped (separator normalization is applied solely for the internal
classification); it returns `none` when no line matches the pattern or
when the trace is unavailable. -/
theorem getCallerFilePath_amended :
    (∀ (l1 l2 : String) (p1 p2 : List Char),
      findFirstMatch l1.toList = some p1 →
      isInternalLibraryPath (normalizeSeps (stripFileProto ⟨p1⟩)) = true →
      findFirstMatch l2.toList = some p2 →
      stripFileProto ⟨p2⟩ ≠ "" →
      isInternalLibraryPath (normalizeSeps (stripFileProto ⟨p2⟩)) = false →
      getCallerFilePath (some [l1, l2]) = some (stripFileProto ⟨p2⟩)) ∧
    (∀ lines : List String,
      (∀ l ∈ lines, findFirstMatch l.toList = none) →
      getCallerFilePath (some lines) = none) ∧
    getCallerFilePath none = none := by
  refine ⟨?_, ?_, rfl⟩
  · intro l1 l2 p1 p2 h1 hint h2 hne hext
    show getCallerFilePathLines [l1, l2] = _
    rw [getCallerFilePathLines, h1]
    by_cases he : stripFileProto ⟨p1⟩ = ""
    · simp only [he, if_pos rfl]
      rw [getCallerFilePathLines, h2]
      simp [hne, hext]
    · simp only [if_neg he, hint, if_pos rfl]
      rw [getCallerFilePathLines, h2]
      simp [hne, hext]
  · intro lines h
    show getCallerFilePathLines lines = none
    induction lines with
    | nil => rfl
    | cons l rest ih =>
      rw [getCallerFilePathLines, h l (by simp)]
      exact ih fun x hx => h x (by simp [hx])

/-- Witness for `getCallerFilePath_amended` on a concrete trace: a
katalist-internal frame followed by a `file://`-prefixed user frame. -/
theorem getCallerFilePath_amended_witness :
    getCallerFilePath (some
      ["    at x (/node_modules/katalist/index.ts:1:1)",
       "at file:///app/main.ts:1:1"]) =
      some (stripFileProto ⟨"file:///app/main.ts".toList⟩) :=
  getCallerFilePath_amended.1
    "    at x (/node_modules/katalist/index.ts:1:1)"
    "at file:///app/main.ts:1:1"
    "/node_modules/katalist/index.ts".toList
    "file:///app/main.ts".toList
    (by decide) (by decide) (by decide) (by decide) (by decide)

/-- Witness for `transformedWritePath_marker_before_extension` at the
concrete path `src/api.ts`. -/
theorem transformedWritePath_marker_witness :
    containsStr "src/api" ".ts" = false ∧
    (transformedWritePath ("src/api" ++ ".ts") = "src/api" ++ ".transformed.ts" ∧
     transformedWritePath ("src/api" ++ ".ts") ≠ "src/api" ++ ".ts") :=
  ⟨by decide, transformedWritePath_marker_before_extension "src/api" (by decide)⟩

/-- C3 (code bug exhibited): for the JSON input `[{"b": 1}]` — an array
of objects, a shape the Facade explicitly supports — synthesis leaves
the object node under the array's `items` without any `required` list,
although its set of non-null property names is `["b"]`:
`addRequiredToAllObjects` recurses only through `properties` and never
through array `items`, contradicting its own documentation ("recursively
add required arrays to all objects") and the call-site comment ("make
all properties required by default"). -/
theorem addRequired_skips_objects_inside_arrays :
    specRequiredOK (jsontoJsonSchema inferredArrayOfObjects "T") = false ∧
    (jsontoJsonSchema inferredArrayOfObjects "T").items.map JSchema.required
      = some none ∧
    (jsontoJsonSchema inferredArrayOfObjects "T").items.map
      (fun s => requiredPropNames (s.properties.getD [])) = some ["b"] := by
  refine ⟨?_, ?_, ?_⟩ <;>
    simp [jsontoJsonSchema, inferredArrayOfObjects, addRequiredToAllObjects,
      specRequiredOK, specRequiredOKProps, requiredPropNames, listSetEq,
      JSchema.items, JSchema.required, JSchema.properties, JSchema.type]

end Katalist
